import Mathlib

/-!
Verification development for the Trio ensemble service.

Shallow embedding of the ensemble orchestration and aggregation engine:
the peer acceptance-voting reply parser (src/voting.py, get_voter_votes),
the tallying loop (run_acceptance_voting), the winner selection
(pick_winner / aggregate_acceptance), the aggregation strategies and their
dispatcher (src/aggregation.py), the voting pipeline (voting_completion),
the trio engine failure policy (src/trio_engine.py, trio_completion) and
the inbound-request validation (src/main.py, chat_completions).

Backend LLM calls are external collaborators; a call result is modelled as
an `Option String` argument (`none` = the call failed, `some s` = it
returned text `s`). Python falsiness of `str | None` values is modelled by
`falsy`. Python list indexing (including negative indices) is modelled by
`pyIndex`; in-range positional indexing is modelled with `List.getD`.
-/

namespace Trio

/-- Python truthiness test `not x` for `x : str | None`:
`None` and the empty string are falsy. -/
def falsy : Option String → Bool
  | none => true
  | some s => s.isEmpty

/-- Rendering of a `str | None` value inside an f-string:
`None` renders as the text None. -/
def optRepr : Option String → String
  | none => "None"
  | some s => s

/-- Python list indexing `l[i]` for `i : int`: a negative index counts from
the end; out of range raises IndexError, modelled as `none`. -/
def pyIndex {α : Type} (l : List α) (i : Int) : Option α :=
  let j : Int := if i < 0 then (l.length : Int) + i else i
  if 0 ≤ j ∧ j < (l.length : Int) then l[j.toNat]? else none

/-! ### Reply parsing (src/voting.py, get_voter_votes) -/

/-- The character class of the Python regex `\s` (ASCII part). -/
def isPySpace (c : Char) : Bool :=
  c == ' ' || c == '\t' || c == '\n' || c == '\r' || c == '\x0b' || c == '\x0c'

/-- Case-insensitive prefix test: does the input start with the (lowercase)
marker? Models matching the literal part of the regex with re.IGNORECASE. -/
def startsWithCI : List Char → List Char → Bool
  | [], _ => true
  | _ :: _, [] => false
  | m :: ms, c :: cs => (c.toLower == m) && startsWithCI ms cs

/-- Maximal digit runs of a character list, in order: the semantics of
Python re.findall with pattern `\d+` (ASCII digits). -/
def digitRunsAux : List Char → List Char → List (List Char)
  | [], cur => if cur.isEmpty then [] else [cur.reverse]
  | c :: cs, cur =>
    if c.isDigit then digitRunsAux cs (c :: cur)
    else if cur.isEmpty then digitRunsAux cs []
    else cur.reverse :: digitRunsAux cs []

def digitRuns (s : List Char) : List (List Char) := digitRunsAux s []

/-- Python `int` on a run of ASCII digits. -/
def digitsToNat (ds : List Char) : Nat :=
  ds.foldl (fun a c => 10 * a + (c.toNat - 48)) 0

def acceptedMarker : List Char := "accepted:".toList

def preferredMarker : List Char := "preferred:".toList

/-- The tail `\s*([^\n]+)` of the ACCEPTED regex, matched at a fixed
position: greedily skip whitespace, then capture one or more non-newline
characters; when everything left is whitespace, the greedy star backtracks
so that the capture becomes the last non-newline character, if any. -/
def matchSpacesLine (cs : List Char) : Option (List Char) :=
  let r := cs.dropWhile isPySpace
  match r with
  | [] =>
    match cs.reverse.find? (fun c => !(c == '\n')) with
    | some c => some [c]
    | none => none
  | _ => some (r.takeWhile (fun c => !(c == '\n')))

/-- The tail `\s*(\d+)` of the PREFERRED regex, matched at a fixed
position. -/
def matchSpacesDigits (cs : List Char) : Option (List Char) :=
  match (cs.dropWhile isPySpace).takeWhile Char.isDigit with
  | [] => none
  | ds => some ds

/-- Leftmost match of `ACCEPTED:\s*([^\n]+)` (case-insensitive), returning
the capture group: the semantics of re.search in get_voter_votes. -/
def searchAccepted : List Char → Option (List Char)
  | [] => none
  | c :: cs =>
    if startsWithCI acceptedMarker (c :: cs) then
      match matchSpacesLine ((c :: cs).drop acceptedMarker.length) with
      | some g => some g
      | none => searchAccepted cs
    else searchAccepted cs

/-- Leftmost match of `PREFERRED:\s*(\d+)` (case-insensitive), returning
the capture group. -/
def searchPreferred : List Char → Option (List Char)
  | [] => none
  | c :: cs =>
    if startsWithCI preferredMarker (c :: cs) then
      match matchSpacesDigits ((c :: cs).drop preferredMarker.length) with
      | some g => some g
      | none => searchPreferred cs
    else searchPreferred cs

/-- The accepted list of get_voter_votes: all integers on the ACCEPTED
line, kept when `0 < k <= n` and converted to 0-indexed. Order and
multiplicity are preserved, exactly as in the Python list comprehension. -/
def parse_accepted (n : Nat) (s : List Char) : List Nat :=
  match searchAccepted s with
  | none => []
  | some g =>
    ((digitRuns g).map digitsToNat).filterMap
      (fun k => if 0 < k && k ≤ n then some (k - 1) else none)

/-- The preferred list of get_voter_votes: the first PREFERRED integer,
kept only when in range and already present in the accepted list. -/
def parse_preferred (n : Nat) (s : List Char) (accepted : List Nat) : List Nat :=
  match searchPreferred s with
  | none => []
  | some g =>
    let k := digitsToNat g
    if 1 ≤ k && k ≤ n && accepted.contains (k - 1) then [k - 1] else []

/-- The parsing part of get_voter_votes: from the voter reply (`none` when
the backend call failed) to the (accepted, preferred) index lists. -/
def parse_votes (n : Nat) (r : Option String) : List Nat × List Nat :=
  match r with
  | none => ([], [])
  | some str =>
    if str.isEmpty then ([], [])
    else
      let a := parse_accepted n str.toList
      (a, parse_preferred n str.toList a)

/-! ### Tallying (src/voting.py, run_acceptance_voting) -/

/-- The inner tally loop: `for idx in idxs: if 0 <= idx < n: counts[idx] += 1`. -/
def bump (n : Nat) (counts : List Nat) (idxs : List Nat) : List Nat :=
  idxs.foldl (fun cs i => if i < n then cs.set i (cs.getD i 0 + 1) else cs) counts

/-- The tally loop of run_acceptance_voting over the per-voter parsed
votes, starting from `[0] * n` twice. -/
def tally_votes (n : Nat) (votes : List (List Nat × List Nat)) : List Nat × List Nat :=
  votes.foldl (fun ap v => (bump n ap.1 v.1, bump n ap.2 v.2))
    (List.replicate n 0, List.replicate n 0)

/-- run_acceptance_voting over `n` candidates, given the raw per-voter
backend replies: parse each reply, then tally. -/
def run_acceptance_voting (n : Nat) (replies : List (Option String)) :
    List Nat × List Nat :=
  tally_votes n (replies.map (parse_votes n))

/-! ### Winner selection (src/voting.py pick_winner, src/aggregation.py) -/

/-- Python tuple comparison `x > y` on pairs of ints. -/
def lexGT (x y : Nat × Nat) : Bool :=
  decide (y.1 < x.1) || (decide (x.1 = y.1) && decide (y.2 < x.2))

/-- Python `max(range(n), key=...)` keeps the current best and replaces it
only on a strictly greater key, so the first maximal index wins. -/
def argmaxGo (key : Nat → Nat × Nat) (l : List Nat) (b : Nat) : Nat :=
  l.foldl (fun best i => if lexGT (key i) (key best) then i else best) b

/-- The shared winner expression
`max(range(len(responses)), key=lambda i: (acceptance_counts[i], preference_counts[i]))`
of pick_winner and aggregate_acceptance. -/
def pick_winner_idx (acc pref : List Nat) (n : Nat) : Nat :=
  argmaxGo (fun i => (acc.getD i 0, pref.getD i 0)) (List.range n) 0

/-- pick_winner from src/voting.py: -1 on an empty candidate list. -/
def pick_winner (rs : List (String × String)) (acc pref : List Nat) : Int :=
  if rs.isEmpty then -1 else (pick_winner_idx acc pref rs.length : Nat)

/-! ### Aggregation strategies (src/aggregation.py) -/

/-- AggregationResult dataclass. -/
structure AggregationResult where
  winner_index : Int
  method : String
  acceptance_counts : List Nat := []
  preference_counts : List Nat := []
  synthesized_response : Option String := none
deriving Repr, DecidableEq

/-- aggregate_random; `randIdx` models the value drawn by
`random.randint(0, len(responses) - 1)`, reduced into the sampled range. -/
def aggregate_random (responses : List (String × String)) (randIdx : Nat) :
    AggregationResult :=
  if responses.isEmpty then ⟨-1, "random", [], [], none⟩
  else
    ⟨((randIdx % responses.length : Nat) : Int), "random",
      List.replicate responses.length 0, List.replicate responses.length 0, none⟩

/-- aggregate_acceptance, given the raw per-voter replies of the peer
voting round. -/
def aggregate_acceptance (responses : List (String × String))
    (voterReplies : List (Option String)) : AggregationResult :=
  if responses.isEmpty then ⟨-1, "acceptance_voting", [], [], none⟩
  else
    let t := run_acceptance_voting responses.length voterReplies
    ⟨(pick_winner_idx t.1 t.2 responses.length : Nat), "acceptance_voting",
      t.1, t.2, none⟩

/-- aggregate_judge, given the judge model reply: the first integer in the
reply selects the winner when in `[1, n]`, otherwise index 0. -/
def aggregate_judge (responses : List (String × String)) (reply : Option String) :
    AggregationResult :=
  if responses.isEmpty then ⟨-1, "judge", [], [], none⟩
  else
    let zeros := List.replicate responses.length 0
    if falsy reply then ⟨0, "judge", zeros, zeros, none⟩
    else
      match (digitRuns (reply.getD "").toList).map digitsToNat with
      | [] => ⟨0, "judge", zeros, zeros, none⟩
      | k :: _ =>
        if 1 ≤ k && k ≤ responses.length then
          ⟨((k - 1 : Nat) : Int), "judge", zeros, zeros, none⟩
        else ⟨0, "judge", zeros, zeros, none⟩

/-- aggregate_synthesize, given the synthesis model reply: on a non-empty
reply, winner_index is the -1 sentinel and the reply is carried in
synthesized_response; on a failed or empty reply, winner_index 0. -/
def aggregate_synthesize (responses : List (String × String))
    (reply : Option String) : AggregationResult :=
  if responses.isEmpty then ⟨-1, "synthesize", [], [], none⟩
  else
    let zeros := List.replicate responses.length 0
    if falsy reply then ⟨0, "synthesize", zeros, zeros, none⟩
    else ⟨-1, "synthesize", zeros, zeros, some (reply.getD "")⟩

def AGGREGATION_METHODS : List String :=
  ["acceptance_voting", "random", "judge", "synthesize"]

/-- The behaviour of the backend LLM for one aggregation round: the reply
of the judge call, of the synthesis call, of each peer voter, and the
value drawn for random selection. -/
structure Backend where
  judgeReply : Option String
  synthReply : Option String
  voterReplies : Nat → Option String
  randIdx : Nat

/-- The aggregate dispatcher of src/aggregation.py. A `ValueError` raised
by the dispatcher is modelled as `Except.error` with its message. -/
def aggregate (method : String) (responses : List (String × String))
    (judge_model synthesize_model : Option String) (b : Backend) :
    Except String AggregationResult :=
  if ¬ AGGREGATION_METHODS.contains method then
    .error ("Unknown aggregation method \x27" ++ method ++ "\x27.")
  else if method = "judge" then
    if falsy judge_model then
      .error "judge_model is required when using \x27judge\x27 aggregation method"
    else .ok (aggregate_judge responses b.judgeReply)
  else if method = "synthesize" then
    if falsy synthesize_model then
      .error "synthesize_model is required when using \x27synthesize\x27 aggregation method"
    else .ok (aggregate_synthesize responses b.synthReply)
  else if method = "random" then .ok (aggregate_random responses b.randIdx)
  else
    .ok (aggregate_acceptance responses
      ((List.range responses.length).map b.voterReplies))

/-! ### The voting pipeline (src/voting.py, voting_completion) -/

/-- Candidate model from src/models.py (as used by voting_completion). -/
structure Candidate where
  model : String
  response : String
  accepted : Nat
  preferred : Nat
deriving Repr, DecidableEq

/-- VotingDetails model from src/models.py (as used by voting_completion). -/
structure VotingDetails where
  winner_index : Int
  candidates : List Candidate
  aggregation_method : String
deriving Repr, DecidableEq

/-- `[(m, r) for m, r in responses_with_models if r]`: members whose
generation call produced a truthy (non-empty) text. -/
def validOf (gen : List (String × Option String)) : List (String × String) :=
  gen.filterMap (fun p =>
    match p.2 with
    | some s => if s.isEmpty then none else some (p.1, s)
    | none => none)

/-- The tail of voting_completion after aggregation: look up
`valid_responses[result.winner_index]` (Python indexing, so the -1
sentinel silently selects the last candidate) and build the candidate
list; the synthesized_response field of the result is never read. -/
def voting_phase2 (valid : List (String × String)) (result : AggregationResult) :
    Except String (String × VotingDetails) :=
  match pyIndex valid result.winner_index with
  | none => .error "IndexError: list index out of range"
  | some wr =>
    let candidates := valid.enum.map (fun p =>
      Candidate.mk p.2.1 p.2.2
        (if result.acceptance_counts.isEmpty then 0
         else result.acceptance_counts.getD p.1 0)
        (if result.preference_counts.isEmpty then 0
         else result.preference_counts.getD p.1 0))
    .ok (wr.2, ⟨result.winner_index, candidates, result.method⟩)

/-- voting_completion from src/voting.py, given the per-member generation
replies `gen` (aligned with the ensemble) and the backend behaviour for
the aggregation round. The returned number counts invocations of the
aggregate dispatcher (hence of aggregation backend calls). Note the
signature: voting_completion accepts a judge_model but no
synthesize_model, and its aggregate call forwards
`synthesize_model := none`, exactly as in the source. -/
def voting_completion (gen : List (String × Option String)) (method : String)
    (judge_model : Option String) (b : Backend) :
    Except String (String × VotingDetails) × Nat :=
  match gen with
  | [(m, r)] =>
    if falsy r then
      (.ok ("Sorry, I couldn\x27t generate a response.", ⟨-1, [], "none"⟩), 0)
    else
      (.ok (r.getD "", ⟨0, [⟨m, r.getD "", 0, 0⟩], "none"⟩), 0)
  | _ =>
    let valid := validOf gen
    match valid with
    | [] => (.ok ("Sorry, I couldn\x27t generate a response.", ⟨-1, [], "none"⟩), 0)
    | [(m, r)] => (.ok (r, ⟨0, [⟨m, r, 0, 0⟩], "none"⟩), 0)
    | _ =>
      match aggregate method valid judge_model none b with
      | .error e => (.error e, 1)
      | .ok result => (voting_phase2 valid result, 1)

/-! ### Trio engine failure policy (src/trio_engine.py, trio_completion) -/

/-- TrioDetails model from src/models.py. -/
structure TrioDetails where
  response_a : String
  response_b : String
  model_a : String
  model_b : String
  model_c : String
deriving Repr, DecidableEq

/-- TrioError from src/trio_engine.py. -/
structure TrioErr where
  message : String
  status_code : Option Nat
deriving Repr, DecidableEq

/-- The failure policy of trio_completion: given the member results of
models A and B (`ra`, `rb` with error messages `ea`, `eb`) and the
synthesis reply of model C, either raise TrioError (both members failed)
or produce the final text. -/
def trio_completion (name_a name_b name_c : String)
    (ra rb ea eb : Option String) (synth : Option String) :
    Except TrioErr (String × TrioDetails) :=
  if falsy ra && falsy rb then
    .error ⟨"All models failed. A: " ++ optRepr ea ++ ". B: " ++ optRepr eb,
            some 502⟩
  else if falsy ra then
    .ok (rb.getD "", ⟨"", rb.getD "", name_a, name_b, name_c⟩)
  else if falsy rb then
    .ok (ra.getD "", ⟨ra.getD "", "", name_a, name_b, name_c⟩)
  else
    let s := if falsy synth then ra.getD "" else synth.getD ""
    .ok (s, ⟨ra.getD "", rb.getD "", name_a, name_b, name_c⟩)

/-! ### Inbound request validation (src/main.py, chat_completions) -/

/-- The ensemble configuration extracted from an inbound request. -/
structure EnsembleModelCfg where
  ensemble : List String
  aggregation_method : String
  judge_model : Option String
  synthesize_model : Option String
deriving Repr, DecidableEq

/-- Modelled from the spec: the pydantic request model `EnsembleModel` is
referenced by src/main.py and the test suite but its declaration is absent
from src/models.py; per the spec invariant `1 <= len(members)` (and the
test expecting HTTP 422 for an empty ensemble array), its validation
rejects an ensemble with no members. -/
def ensemble_model_valid (e : EnsembleModelCfg) : Bool :=
  !e.ensemble.isEmpty

inductive RequestOutcome where
  | rejected (status : Nat) (detail : String)
  | dispatch (e : EnsembleModelCfg)
deriving Repr, DecidableEq

def MAX_ENSEMBLE_SIZE : Nat := 9

/-- The validation gate of chat_completions in src/main.py: pydantic
validation of the request body (HTTP 422) runs before the handler; the
handler then rejects oversized ensembles and judge/synthesize without a
companion model (HTTP 400). Only a request that passes every check is
dispatched to voting_completion (which makes the backend calls). -/
def chat_completions_validate (e : EnsembleModelCfg) : RequestOutcome :=
  if ¬ ensemble_model_valid e then
    .rejected 422 "ensemble must contain at least one member"
  else if MAX_ENSEMBLE_SIZE < e.ensemble.length then
    .rejected 400 ("Ensemble size " ++ toString e.ensemble.length ++
      " exceeds maximum of " ++ toString MAX_ENSEMBLE_SIZE ++ " models")
  else if e.aggregation_method = "judge" && falsy e.judge_model then
    .rejected 400 "judge_model is required when using \x27judge\x27 aggregation method"
  else if e.aggregation_method = "synthesize" && falsy e.synthesize_model then
    .rejected 400 "synthesize_model is required when using \x27synthesize\x27 aggregation method"
  else .dispatch e

/-- The integers appearing in a judge reply, in order of appearance
(re.findall semantics); the head, when present, is the integer that
re.search finds for aggregate_judge. -/
def judgeInts (reply : Option String) : List Nat :=
  (digitRuns (reply.getD "").toList).map digitsToNat

/-- The first-integer contract of the judge parser, as a standalone
specification function compared against aggregate_judge. -/
def judgeWinnerSpec (n : Nat) (ints : List Nat) : Int :=
  match ints with
  | [] => 0
  | k :: _ => if 1 ≤ k ∧ k ≤ n then ((k - 1 : Nat) : Int) else 0

end Trio

namespace Trio

/-! ### Helper lemmas about the reply parser -/

theorem mem_parse_accepted {n : Nat} {s : List Char} {i : Nat}
    (h : i ∈ parse_accepted n s) : i < n := by
  unfold parse_accepted at h
  cases hs : searchAccepted s with
  | none => rw [hs] at h; simp at h
  | some g =>
    rw [hs] at h
    rw [List.mem_filterMap] at h
    obtain ⟨k, -, hk⟩ := h
    by_cases hg : (0 < k && decide (k ≤ n)) = true
    · simp only [decide_eq_true_eq] at hg
      simp only [hg] at hk
      simp only [Bool.and_eq_true, decide_eq_true_eq] at hg
      simp only [if_pos] at hk
      · cases hk; omega
    · simp only [hg] at hk
      simp at hk

theorem parse_preferred_eq (n : Nat) (s : List Char) (a : List Nat) :
    parse_preferred n s a = []
    ∨ ∃ k, parse_preferred n s a = [k] ∧ a.contains k = true ∧ k < n := by
  unfold parse_preferred
  cases searchPreferred s with
  | none => exact Or.inl rfl
  | some g =>
    by_cases hg : (1 ≤ digitsToNat g && decide (digitsToNat g ≤ n)
        && a.contains (digitsToNat g - 1)) = true
    · refine Or.inr ⟨digitsToNat g - 1, ?_, ?_, ?_⟩
      · simp only [hg, if_true]
      · simp only [Bool.and_eq_true] at hg
        exact hg.2
      · simp only [Bool.and_eq_true, decide_eq_true_eq] at hg
        omega
    · simp only [hg]
      exact Or.inl rfl


theorem mem_parse_preferred {n : Nat} {s : List Char} {a : List Nat} {i : Nat}
    (h : i ∈ parse_preferred n s a) : i < n ∧ a.contains i = true := by
  rcases parse_preferred_eq n s a with he | ⟨k, he, hc, hk⟩
  · rw [he] at h; simp at h
  · rw [he] at h
    simp only [List.mem_singleton] at h
    subst h
    exact ⟨hk, hc⟩

/-- C8: a PREFERRED index that is not already in the same voter reply A
ACCEPTED set is discarded: every parsed preferred index is a member of the
same reply parsed accepted list, so it can never reach preferenceCounts. -/
theorem preferred_subset_accepted (n : Nat) (r : Option String) :
    ((parse_votes n r).2).all (fun i => (parse_votes n r).1.contains i) = true := by
  rw [List.all_eq_true]
  intro i hi
  unfold parse_votes at hi ⊢
  cases r with
  | none => simp at hi
  | some str =>
    by_cases hs : str.isEmpty
    · simp only [hs, if_true] at hi
      simp at hi
    · simp only [hs, if_false] at hi ⊢
      simp only [Bool.false_eq_true] at hi ⊢
      exact (mem_parse_preferred hi).2

/-- C9: reply parsing is total (a plain function of the reply text) and
every index it returns, accepted or preferred, lies in `[0, n)`;
out-of-range vote numbers are discarded rather than crashing. -/
theorem parse_votes_in_range (n : Nat) (r : Option String) :
    ((parse_votes n r).1.all (fun i => decide (i < n)) = true)
    ∧ ((parse_votes n r).2.all (fun i => decide (i < n)) = true) := by
  constructor <;> rw [List.all_eq_true] <;> intro i hi <;>
    rw [decide_eq_true_eq] <;> unfold parse_votes at hi <;>
    (cases r with
     | none => simp at hi
     | some str =>
       by_cases hs : str.isEmpty
       · simp only [hs, if_true] at hi; simp at hi
       · simp only [hs, if_false] at hi
         simp only [Bool.false_eq_true] at hi
         first
           | exact mem_parse_accepted hi
           | exact (mem_parse_preferred hi).1)


/-- C1: the synthesize path evaluated at a failing input. With two
surviving candidates and a synthesis backend that would reply "S",
voting_completion (which accepts no synthesize_model and forwards `none`
to the aggregate dispatcher) raises the dispatcher ValueError instead of
completing; and even when the phase-2 logic is fed a successful synthesis
result (winner_index = -1, synthesizedText "S"), it ignores
synthesized_response and returns the LAST surviving candidate text "t2"
(Python indexing with -1), not the synthesized text and not the first
survivor. -/
theorem synthesize_pipeline_failing_input :
    voting_completion [("m1", some "t1"), ("m2", some "t2")] "synthesize" none
        ⟨none, some "S", fun _ => none, 0⟩
      = (.error "synthesize_model is required when using \x27synthesize\x27 aggregation method", 1)
    ∧ (aggregate_synthesize [("m1", "t1"), ("m2", "t2")] (some "S")).winner_index = -1
    ∧ (aggregate_synthesize [("m1", "t1"), ("m2", "t2")] (some "S")).synthesized_response
        = some "S"
    ∧ voting_phase2 [("m1", "t1"), ("m2", "t2")]
        (aggregate_synthesize [("m1", "t1"), ("m2", "t2")] (some "S"))
      = .ok ("t2", ⟨-1, [⟨"m1", "t1", 0, 0⟩, ⟨"m2", "t2", 0, 0⟩], "synthesize"⟩) := by
  refine ⟨?_, rfl, rfl, ?_⟩ <;> rfl


theorem validOf_eq_nil {gen : List (String × Option String)}
    (h : ∀ p ∈ gen, falsy p.2 = true) : validOf gen = [] := by
  induction gen with
  | nil => rfl
  | cons p t ih =>
    have hp := h p (List.mem_cons_self p t)
    have ht := ih (fun q hq => h q (List.mem_cons_of_mem p hq))
    unfold validOf at ht ⊢
    rw [List.filterMap_cons]
    cases hr : p.2 with
    | none => exact ht
    | some s =>
      rw [hr] at hp
      simp only [falsy] at hp
      simp only [hp, if_true]
      exact ht

/-- C2 counterexample: a voting ensemble node in which every member fails
does NOT raise an error: voting_completion returns a normal `.ok` text
response (the apology string) with winner_index -1 and no candidates. -/
theorem all_members_fail_returns_normal_text :
    voting_completion [("m1", none), ("m2", none)] "acceptance_voting" none
        ⟨none, none, fun _ => none, 0⟩
      = (.ok ("Sorry, I couldn\x27t generate a response.", ⟨-1, [], "none"⟩), 0) := rfl

/-- C2 amended: the trio engine raises TrioError (status 502) naming both
per-member failure reasons when models A and B both fail; the voting
ensemble pipeline, however, turns total failure into a normal text
response (the apology string, winner_index -1, no candidates, zero
aggregation calls), not an error. -/
theorem total_failure_policy
    (gen : List (String × Option String)) (method : String) (jm : Option String)
    (b : Backend) (na nb nc : String) (ra rb ea eb synth : Option String)
    (hall : ∀ p ∈ gen, falsy p.2 = true)
    (hra : falsy ra = true) (hrb : falsy rb = true) :
    voting_completion gen method jm b
      = (.ok ("Sorry, I couldn\x27t generate a response.", ⟨-1, [], "none"⟩), 0)
    ∧ trio_completion na nb nc ra rb ea eb synth
      = .error ⟨"All models failed. A: " ++ optRepr ea ++ ". B: " ++ optRepr eb,
                some 502⟩ := by
  constructor
  · have hnil := validOf_eq_nil hall
    match gen, hall with
    | [], _ => rfl
    | [(m, r)], hall =>
      have : falsy r = true := hall (m, r) (List.mem_cons_self _ _)
      unfold voting_completion
      simp only [this, if_true]
    | (p :: q :: t), hall =>
      unfold voting_completion
      rw [show validOf (p :: q :: t) = [] from hnil]
  · unfold trio_completion
    simp only [hra, hrb, Bool.and_self, if_true]

/-- C2 witness: the amended failure policy at concrete inputs. -/
theorem total_failure_policy_witness :
    voting_completion [("m1", none)] "random" none ⟨none, none, fun _ => none, 0⟩
      = (.ok ("Sorry, I couldn\x27t generate a response.", ⟨-1, [], "none"⟩), 0)
    ∧ trio_completion "a" "b" "c" none none (some "boom") (some "bust") none
      = .error ⟨"All models failed. A: " ++ optRepr (some "boom") ++ ". B: "
                ++ optRepr (some "bust"), some 502⟩ :=
  total_failure_policy [("m1", none)] "random" none ⟨none, none, fun _ => none, 0⟩
    "a" "b" "c" none none (some "boom") (some "bust") none
    (by intro p hp; simp at hp; rw [hp]; rfl) rfl rfl


/-- C6: when exactly one ensemble member survives generation (a singleton
ensemble, or all other members failed), voting_completion returns that
member text verbatim, never invokes the aggregate dispatcher (0
aggregation calls), and reports a single candidate with zero tallies and
winner_index 0. -/
theorem single_survivor_skips_aggregation
    (gen : List (String × Option String)) (method : String) (jm : Option String)
    (b : Backend) (m r : String) (h : validOf gen = [(m, r)]) :
    voting_completion gen method jm b
      = (.ok (r, ⟨0, [⟨m, r, 0, 0⟩], "none"⟩), 0) := by
  match gen with
  | [] => simp [validOf] at h
  | [(m0, r0)] =>
    unfold validOf at h
    rw [List.filterMap_cons] at h
    cases r0 with
    | none => simp at h
    | some s =>
      by_cases hs : s.isEmpty
      · simp only [hs, if_true] at h
        simp at h
      · simp only [hs, if_false] at h
        simp only [Bool.false_eq_true, List.filterMap_nil] at h
        cases h
        unfold voting_completion
        simp [falsy, hs]
  | (p :: q :: t) =>
    unfold voting_completion
    rw [show validOf (p :: q :: t) = [(m, r)] from h]

/-- C6 witness: one member succeeds, one fails. -/
theorem single_survivor_skips_aggregation_witness :
    voting_completion [("m1", some "A"), ("m2", none)] "acceptance_voting" none
        ⟨none, none, fun _ => none, 0⟩
      = (.ok ("A", ⟨0, [⟨"m1", "A", 0, 0⟩], "none"⟩), 0) :=
  single_survivor_skips_aggregation [("m1", some "A"), ("m2", none)]
    "acceptance_voting" none ⟨none, none, fun _ => none, 0⟩ "m1" "A" rfl

/-- C7: an inbound ensemble request violating the member-count invariant
`1 <= len <= 9`, or naming judge without a judge model, or synthesize
without a synthesize model, is rejected by the validation gate (which runs
before dispatch, hence before any backend call). -/
theorem invalid_request_rejected (e : EnsembleModelCfg)
    (h : e.ensemble.length < 1 ∨ MAX_ENSEMBLE_SIZE < e.ensemble.length
       ∨ (e.aggregation_method = "judge" ∧ falsy e.judge_model = true)
       ∨ (e.aggregation_method = "synthesize" ∧ falsy e.synthesize_model = true)) :
    ∃ s d, chat_completions_validate e = .rejected s d := by
  unfold chat_completions_validate
  by_cases h1 : ensemble_model_valid e = true
  · simp only [h1, not_true, if_false]
    by_cases h2 : MAX_ENSEMBLE_SIZE < e.ensemble.length
    · simp only [if_pos h2]
      exact ⟨_, _, rfl⟩
    · simp only [if_neg h2]
      by_cases h3 : (decide (e.aggregation_method = "judge") && falsy e.judge_model) = true
      · simp only [h3, if_true]
        exact ⟨_, _, rfl⟩
      · simp only [h3, Bool.false_eq_true, if_false]
        by_cases h4 : (decide (e.aggregation_method = "synthesize")
            && falsy e.synthesize_model) = true
        · simp only [h4, if_true]
          exact ⟨_, _, rfl⟩
        · exfalso
          have hne : e.ensemble ≠ [] := by
            unfold ensemble_model_valid at h1
            simpa using h1
          have hlen : 1 ≤ e.ensemble.length := List.length_pos.mpr hne
          simp only [Bool.and_eq_true, decide_eq_true_eq] at h3 h4
          rcases h with hc | hc | hc | hc
          · omega
          · exact h2 hc
          · exact h3 ⟨hc.1, hc.2⟩
          · exact h4 ⟨hc.1, hc.2⟩
  · refine ⟨422, "ensemble must contain at least one member", ?_⟩
    rw [if_pos h1]

/-- C7 witness: an ensemble of ten members is rejected. -/
theorem invalid_request_rejected_witness :
    ∃ s d, chat_completions_validate
        ⟨["m1", "m2", "m3", "m4", "m5", "m6", "m7", "m8", "m9", "m10"],
          "random", none, none⟩ = .rejected s d :=
  invalid_request_rejected
    ⟨["m1", "m2", "m3", "m4", "m5", "m6", "m7", "m8", "m9", "m10"],
      "random", none, none⟩ (by right; left; decide)


/-- C4 counterexample: over three candidates, the judge reply containing
the in-range integer 2 (after the integer 1) yields winner index 0, not
2 - 1 = 1: only the FIRST integer of the reply is consulted. -/
theorem judge_any_integer_claim_false :
    2 ∈ judgeInts (some "1 or 2")
    ∧ (1 : Nat) ≤ 2 ∧ (2 : Nat) ≤ 3
    ∧ (aggregate_judge [("m1", "r1"), ("m2", "r2"), ("m3", "r3")]
        (some "1 or 2")).winner_index ≠ 1 := by
  refine ⟨by decide, by decide, by decide, by decide⟩

theorem judgeInts_of_falsy {reply : Option String} (h : falsy reply = true) :
    judgeInts reply = [] := by
  cases reply with
  | none => rfl
  | some s =>
    simp only [falsy] at h
    rw [String.isEmpty_iff] at h
    subst h
    rfl

/-- Closed form of the judge winner index: the first integer of the
reply decides. -/
theorem judge_winner_eq (rs : List (String × String)) (reply : Option String)
    (h : rs.isEmpty = false) :
    (aggregate_judge rs reply).winner_index
      = judgeWinnerSpec rs.length (judgeInts reply) := by
  unfold aggregate_judge
  simp only [h, Bool.false_eq_true, if_false]
  by_cases hf : falsy reply = true
  · rw [judgeInts_of_falsy hf]
    simp only [hf, if_true]
    rfl
  · simp only [hf, Bool.false_eq_true, if_false]
    cases hj : judgeInts reply with
    | nil =>
      rw [show (digitRuns (reply.getD "").toList).map digitsToNat = [] from hj]
      rfl
    | cons k t =>
      rw [show (digitRuns (reply.getD "").toList).map digitsToNat = k :: t from hj]
      rw [show judgeWinnerSpec rs.length (k :: t)
            = if 1 ≤ k ∧ k ≤ rs.length then ((k - 1 : Nat) : Int) else 0 from rfl]
      by_cases hg : (1 ≤ k && decide (k ≤ rs.length)) = true
      · have hp : 1 ≤ k ∧ k ≤ rs.length := by simpa using hg
        simp only [hg, if_true]
        rw [if_pos hp]
      · have hp : ¬ (1 ≤ k ∧ k ≤ rs.length) := by
          intro hc
          exact hg (by simp [hc.1, hc.2])
        simp only [hg, Bool.false_eq_true, if_false]
        rw [if_neg hp]

/-- C4 amended: the judge winner is decided by the FIRST integer of the
reply: if it exists and lies in `[1, n]` the winner index is that integer
minus one; on an empty or failed reply, a reply with no integer, or a
first integer out of range, the winner index is 0; in every case the
winner index lies in `[0, n)` and no hard failure occurs. -/
theorem judge_first_integer_contract (rs : List (String × String))
    (reply : Option String) (h : rs ≠ []) :
    0 ≤ (aggregate_judge rs reply).winner_index
    ∧ (aggregate_judge rs reply).winner_index < (rs.length : Int)
    ∧ (∀ k, (judgeInts reply).head? = some k → 1 ≤ k → k ≤ rs.length →
        (aggregate_judge rs reply).winner_index = (k : Int) - 1)
    ∧ ((judgeInts reply).head? = none → (aggregate_judge rs reply).winner_index = 0)
    ∧ (∀ k, (judgeInts reply).head? = some k → (k = 0 ∨ rs.length < k) →
        (aggregate_judge rs reply).winner_index = 0) := by
  have hlen : 0 < rs.length := List.length_pos.mpr h
  have hne : rs.isEmpty = false := by
    cases rs with
    | nil => exact absurd rfl h
    | cons a l => rfl
  rw [judge_winner_eq rs reply hne]
  cases hj : judgeInts reply with
  | nil =>
    rw [show judgeWinnerSpec rs.length [] = 0 from rfl]
    refine ⟨le_refl 0, by exact_mod_cast hlen, ?_, fun _ => rfl, ?_⟩
    · intro k hk
      simp at hk
    · intro k hk
      simp at hk
  | cons k0 t =>
    rw [show judgeWinnerSpec rs.length (k0 :: t)
          = if 1 ≤ k0 ∧ k0 ≤ rs.length then ((k0 - 1 : Nat) : Int) else 0 from rfl]
    simp only [List.head?_cons, Option.some.injEq]
    by_cases hp : 1 ≤ k0 ∧ k0 ≤ rs.length
    · rw [if_pos hp]
      refine ⟨by exact_mod_cast Nat.zero_le _, ?_, ?_, ?_, ?_⟩
      · exact_mod_cast (by omega : k0 - 1 < rs.length)
      · intro k hk h1 h2
        subst hk
        omega
      · intro hk
        simp at hk
      · intro k hk hbad
        subst hk
        omega
    · rw [if_neg hp]
      refine ⟨le_refl 0, by exact_mod_cast hlen, ?_, ?_, ?_⟩
      · intro k hk h1 h2
        subst hk
        exact absurd ⟨h1, h2⟩ hp
      · intro hk
        simp at hk
      · intro k hk hbad
        rfl

/-- C4 amended witness: judge over three candidates with reply 2. -/
theorem judge_first_integer_contract_witness :
    0 ≤ (aggregate_judge [("m1", "r1"), ("m2", "r2"), ("m3", "r3")]
          (some "2")).winner_index
    ∧ (aggregate_judge [("m1", "r1"), ("m2", "r2"), ("m3", "r3")]
          (some "2")).winner_index
        < ([("m1", "r1"), ("m2", "r2"), ("m3", "r3")].length : Int)
    ∧ (∀ k, (judgeInts (some "2")).head? = some k → 1 ≤ k →
        k ≤ [("m1", "r1"), ("m2", "r2"), ("m3", "r3")].length →
        (aggregate_judge [("m1", "r1"), ("m2", "r2"), ("m3", "r3")]
          (some "2")).winner_index = (k : Int) - 1)
    ∧ ((judgeInts (some "2")).head? = none →
        (aggregate_judge [("m1", "r1"), ("m2", "r2"), ("m3", "r3")]
          (some "2")).winner_index = 0)
    ∧ (∀ k, (judgeInts (some "2")).head? = some k →
        (k = 0 ∨ [("m1", "r1"), ("m2", "r2"), ("m3", "r3")].length < k) →
        (aggregate_judge [("m1", "r1"), ("m2", "r2"), ("m3", "r3")]
          (some "2")).winner_index = 0) :=
  judge_first_integer_contract [("m1", "r1"), ("m2", "r2"), ("m3", "r3")]
    (some "2") (by decide)

/-! ### Helper lemmas about the tally loop -/

theorem bump_length (n : Nat) (idxs : List Nat) :
    ∀ cs : List Nat, (bump n cs idxs).length = cs.length := by
  induction idxs with
  | nil => intro cs; rfl
  | cons j t ih =>
    intro cs
    unfold bump at ih ⊢
    rw [List.foldl_cons, ih]
    by_cases hj : j < n
    · rw [if_pos hj, List.length_set]
    · rw [if_neg hj]

theorem bump_getD (n : Nat) (idxs : List Nat) :
    ∀ cs : List Nat, cs.length = n → ∀ i, i < n →
      (bump n cs idxs).getD i 0 = cs.getD i 0 + idxs.count i := by
  induction idxs with
  | nil =>
    intro cs hlen i hi
    rw [List.count_nil]
    simp [bump]
  | cons j t ih =>
    intro cs hlen i hi
    have hstep : (if j < n then cs.set j (cs.getD j 0 + 1) else cs).length = n := by
      by_cases hj : j < n
      · rw [if_pos hj, List.length_set, hlen]
      · rw [if_neg hj, hlen]
    unfold bump at ih ⊢
    rw [List.foldl_cons]
    rw [ih _ hstep i hi]
    rw [List.count_cons]
    by_cases hji : j = i
    · subst hji
      have hjn : j < n := hi
      rw [if_pos hjn]
      rw [List.getD_eq_getElem?_getD, List.getElem?_set_self (by omega),
        Option.getD_some, List.getD_eq_getElem?_getD]
      simp only [beq_self_eq_true, if_true]
      omega
    · have hset : (cs.set j (cs.getD j 0 + 1)).getD i 0 = cs.getD i 0 := by
        rw [List.getD_eq_getElem?_getD, List.getElem?_set_ne hji,
          ← List.getD_eq_getElem?_getD]
      have hbeq : (j == i) = false := by
        simp [hji]
      rw [hbeq]
      by_cases hj : j < n
      · rw [if_pos hj, hset]
        simp
      · rw [if_neg hj]
        simp

theorem tally_go_length (n : Nat) (votes : List (List Nat × List Nat)) :
    ∀ ap : List Nat × List Nat,
      (votes.foldl (fun ap v => (bump n ap.1 v.1, bump n ap.2 v.2)) ap).1.length
        = ap.1.length
      ∧ (votes.foldl (fun ap v => (bump n ap.1 v.1, bump n ap.2 v.2)) ap).2.length
        = ap.2.length := by
  induction votes with
  | nil => intro ap; exact ⟨rfl, rfl⟩
  | cons v t ih =>
    intro ap
    rw [List.foldl_cons]
    refine ⟨?_, ?_⟩
    · rw [(ih _).1, bump_length]
    · rw [(ih _).2, bump_length]

theorem tally_go_getD (n : Nat) (votes : List (List Nat × List Nat)) (i : Nat)
    (hi : i < n) :
    ∀ ap : List Nat × List Nat, ap.1.length = n → ap.2.length = n →
      (votes.foldl (fun ap v => (bump n ap.1 v.1, bump n ap.2 v.2)) ap).1.getD i 0
        = ap.1.getD i 0 + (votes.map (fun v => v.1.count i)).sum
      ∧ (votes.foldl (fun ap v => (bump n ap.1 v.1, bump n ap.2 v.2)) ap).2.getD i 0
        = ap.2.getD i 0 + (votes.map (fun v => v.2.count i)).sum := by
  induction votes with
  | nil =>
    intro ap h1 h2
    constructor <;> simp
  | cons v t ih =>
    intro ap h1 h2
    rw [List.foldl_cons]
    have hb1 : (bump n ap.1 v.1).length = n := by rw [bump_length, h1]
    have hb2 : (bump n ap.2 v.2).length = n := by rw [bump_length, h2]
    obtain ⟨g1, g2⟩ := ih (bump n ap.1 v.1, bump n ap.2 v.2) hb1 hb2
    constructor
    · rw [g1, bump_getD n v.1 ap.1 h1 i hi, List.map_cons, List.sum_cons]
      omega
    · rw [g2, bump_getD n v.2 ap.2 h2 i hi, List.map_cons, List.sum_cons]
      omega

theorem replicate_getD (n i : Nat) (hi : i < n) :
    (List.replicate n (0 : Nat)).getD i 0 = 0 := by
  rw [List.getD_eq_getElem?_getD, List.getElem?_replicate, if_pos hi]
  rfl

theorem run_acceptance_voting_getD (n : Nat) (replies : List (Option String))
    (i : Nat) (hi : i < n) :
    (run_acceptance_voting n replies).1.getD i 0
      = (replies.map (fun r => ((parse_votes n r).1.count i))).sum
    ∧ (run_acceptance_voting n replies).2.getD i 0
      = (replies.map (fun r => ((parse_votes n r).2.count i))).sum := by
  unfold run_acceptance_voting tally_votes
  obtain ⟨g1, g2⟩ := tally_go_getD n (replies.map (parse_votes n)) i hi
    (List.replicate n 0, List.replicate n 0)
    (by rw [List.length_replicate]) (by rw [List.length_replicate])
  rw [g1, g2, replicate_getD n i hi, List.map_map, List.map_map]
  constructor <;> simp [Function.comp_def]


theorem parse_pref_count (n : Nat) (r : Option String) (i : Nat) :
    ((parse_votes n r).2).count i
      = if ((parse_votes n r).2).contains i then 1 else 0 := by
  unfold parse_votes
  cases r with
  | none => simp
  | some str =>
    by_cases hs : str.isEmpty
    · simp [hs]
    · simp only [hs, Bool.false_eq_true, if_false]
      rcases parse_preferred_eq n str.toList (parse_accepted n str.toList)
        with he | ⟨k, he, hc, hk⟩
      · rw [he]
        simp
      · rw [he]
        by_cases hki : k = i
        · subst hki
          simp
        · simp [hki, Ne.symm hki]

theorem sum_pref_count_eq_countP (n : Nat) (i : Nat) :
    ∀ replies : List (Option String),
      (replies.map (fun r => ((parse_votes n r).2).count i)).sum
        = replies.countP (fun r => ((parse_votes n r).2).contains i) := by
  intro replies
  induction replies with
  | nil => rfl
  | cons r t ih =>
    rw [List.map_cons, List.sum_cons, List.countP_cons, ih, parse_pref_count]
    by_cases hc : ((parse_votes n r).2).contains i = true
    · rw [if_pos hc]
      omega
    · rw [if_neg hc]
      omega

/-- C5 counterexample: one voter whose reply repeats an accepted number
("ACCEPTED: 1, 1") contributes 2 to acceptanceCounts[0], so
acceptanceCounts[0] differs from the number of voters whose accepted set
contains 0 (which is 1). -/
theorem duplicate_acceptance_counted_twice :
    (run_acceptance_voting 1 [some "ACCEPTED: 1, 1\nPREFERRED: 1"]).1.getD 0 0 = 2
    ∧ [some "ACCEPTED: 1, 1\nPREFERRED: 1"].countP
        (fun r => (parse_votes 1 r).1.contains 0) = 1
    ∧ (run_acceptance_voting 1 [some "ACCEPTED: 1, 1\nPREFERRED: 1"]).1.getD 0 0
        ≠ [some "ACCEPTED: 1, 1\nPREFERRED: 1"].countP
            (fun r => (parse_votes 1 r).1.contains 0) :=
  ⟨by decide, by decide, by decide⟩

/-- C5 amended: acceptanceCounts[i] equals the total number of occurrences
of i across the voters parsed accepted lists (a reply repeating a number
contributes once per occurrence), while preferenceCounts[i] equals the
number of voters whose valid preference is i. -/
theorem acceptance_tallies (n : Nat) (replies : List (Option String)) (i : Nat)
    (hi : i < n) :
    (run_acceptance_voting n replies).1.getD i 0
      = (replies.map (fun r => ((parse_votes n r).1.count i))).sum
    ∧ (run_acceptance_voting n replies).2.getD i 0
      = replies.countP (fun r => ((parse_votes n r).2.contains i)) := by
  obtain ⟨g1, g2⟩ := run_acceptance_voting_getD n replies i hi
  exact ⟨g1, by rw [g2, sum_pref_count_eq_countP]⟩

/-- C5 amended witness: a single voter accepting and preferring the only
candidate. -/
theorem acceptance_tallies_witness :
    (run_acceptance_voting 1 [some "ACCEPTED: 1\nPREFERRED: 1"]).1.getD 0 0
      = ([some "ACCEPTED: 1\nPREFERRED: 1"].map
          (fun r => ((parse_votes 1 r).1.count 0))).sum
    ∧ (run_acceptance_voting 1 [some "ACCEPTED: 1\nPREFERRED: 1"]).2.getD 0 0
      = [some "ACCEPTED: 1\nPREFERRED: 1"].countP
          (fun r => ((parse_votes 1 r).2.contains 0)) :=
  acceptance_tallies 1 [some "ACCEPTED: 1\nPREFERRED: 1"] 0 (by decide)


theorem parse_pref_count_le_acc (n : Nat) (r : Option String) (i : Nat) :
    ((parse_votes n r).2).count i ≤ ((parse_votes n r).1).count i := by
  unfold parse_votes
  cases r with
  | none => simp
  | some str =>
    by_cases hs : str.isEmpty
    · simp [hs]
    · simp only [hs, Bool.false_eq_true, if_false]
      rcases parse_preferred_eq n str.toList (parse_accepted n str.toList)
        with he | ⟨k, he, hc, hk⟩
      · rw [he]
        simp
      · rw [he]
        by_cases hki : k = i
        · subst hki
          have hmem : k ∈ parse_accepted n str.toList :=
            List.mem_of_elem_eq_true hc
          have hpos : 0 < (parse_accepted n str.toList).count k :=
            List.count_pos_iff.mpr hmem
          simp only [List.count_singleton, beq_self_eq_true, if_true]
          omega
        · simp [hki, Ne.symm hki]

/-- C10: run_acceptance_voting returns two lists of length exactly n, all
entries non-negative, and pointwise preferenceCounts[i] <=
acceptanceCounts[i]: each voter contributes at most one preference, and
only to an index that voter also accepted. -/
theorem tally_shape_and_dominance (n : Nat) (replies : List (Option String)) :
    (run_acceptance_voting n replies).1.length = n
    ∧ (run_acceptance_voting n replies).2.length = n
    ∧ (∀ x ∈ (run_acceptance_voting n replies).1, 0 ≤ x)
    ∧ (∀ i, i < n →
        (run_acceptance_voting n replies).2.getD i 0
          ≤ (run_acceptance_voting n replies).1.getD i 0) := by
  obtain ⟨l1, l2⟩ := tally_go_length n (replies.map (parse_votes n))
    (List.replicate n 0, List.replicate n 0)
  refine ⟨?_, ?_, fun x _ => Nat.zero_le x, ?_⟩
  · unfold run_acceptance_voting tally_votes
    rw [l1, List.length_replicate]
  · unfold run_acceptance_voting tally_votes
    rw [l2, List.length_replicate]
  · intro i hi
    obtain ⟨g1, g2⟩ := run_acceptance_voting_getD n replies i hi
    rw [g1, g2]
    exact List.sum_le_sum (fun r _ => parse_pref_count_le_acc n r i)

/-- C10 witness: two candidates, one voter reply. -/
theorem tally_shape_and_dominance_witness :
    (run_acceptance_voting 2 [some "ACCEPTED: 1, 2\nPREFERRED: 2"]).1.length = 2
    ∧ (run_acceptance_voting 2 [some "ACCEPTED: 1, 2\nPREFERRED: 2"]).2.length = 2
    ∧ (∀ x ∈ (run_acceptance_voting 2 [some "ACCEPTED: 1, 2\nPREFERRED: 2"]).1, 0 ≤ x)
    ∧ (∀ i, i < 2 →
        (run_acceptance_voting 2 [some "ACCEPTED: 1, 2\nPREFERRED: 2"]).2.getD i 0
          ≤ (run_acceptance_voting 2 [some "ACCEPTED: 1, 2\nPREFERRED: 2"]).1.getD i 0) :=
  tally_shape_and_dominance 2 [some "ACCEPTED: 1, 2\nPREFERRED: 2"]


/-! ### Helper lemmas about the winner selection -/

theorem lexGT_irrefl (a : Nat × Nat) : lexGT a a = false := by
  simp [lexGT]

theorem lexGT_trans {a b c : Nat × Nat} (h1 : lexGT a b = true)
    (h2 : lexGT b c = true) : lexGT a c = true := by
  simp only [lexGT, Bool.or_eq_true, Bool.and_eq_true, decide_eq_true_eq] at h1 h2 ⊢
  omega

theorem lexGT_le_lt {a b c : Nat × Nat} (h1 : lexGT a b = false)
    (h2 : lexGT a c = true) : lexGT b c = true := by
  simp only [lexGT, Bool.or_eq_true, Bool.and_eq_true, decide_eq_true_eq,
    Bool.or_eq_false_iff, Bool.and_eq_false_iff, decide_eq_false_iff_not] at h1 h2 ⊢
  omega

theorem lexGT_antisymm {a b : Nat × Nat} (h1 : lexGT a b = false)
    (h2 : lexGT b a = false) : a = b := by
  obtain ⟨a1, a2⟩ := a
  obtain ⟨b1, b2⟩ := b
  simp only [lexGT, Bool.or_eq_false_iff, Bool.and_eq_false_iff,
    decide_eq_false_iff_not] at h1 h2
  simp only [Prod.mk.injEq]
  omega

theorem argmaxGo_spec (key : Nat → Nat × Nat) :
    ∀ (l : List Nat) (b : Nat), List.Pairwise (· < ·) l → (∀ a ∈ l, b ≤ a) →
      (argmaxGo key l b = b ∨ argmaxGo key l b ∈ l)
      ∧ lexGT (key b) (key (argmaxGo key l b)) = false
      ∧ (∀ i ∈ l, lexGT (key i) (key (argmaxGo key l b)) = false)
      ∧ (key b = key (argmaxGo key l b) → argmaxGo key l b ≤ b)
      ∧ (∀ i ∈ l, key i = key (argmaxGo key l b) → argmaxGo key l b ≤ i) := by
  intro l
  induction l with
  | nil =>
    intro b _ _
    refine ⟨Or.inl rfl, ?_, ?_, ?_, ?_⟩
    · exact lexGT_irrefl (key b)
    · intro i hi; simp at hi
    · intro _; exact le_refl b
    · intro i hi; simp at hi
  | cons x xs ih =>
    intro b hpw hle
    rw [List.pairwise_cons] at hpw
    have hbx : b ≤ x := hle x (List.mem_cons_self x xs)
    have hstep : argmaxGo key (x :: xs) b
        = argmaxGo key xs (if lexGT (key x) (key b) then x else b) := by
      unfold argmaxGo
      rw [List.foldl_cons]
    by_cases hxb : lexGT (key x) (key b) = true
    · rw [if_pos hxb] at hstep
      obtain ⟨m1, m2, m3, m4, m5⟩ := ih x hpw.2 (fun a ha => le_of_lt (hpw.1 a ha))
      rw [hstep]
      set res := argmaxGo key xs x with hres
      refine ⟨?_, ?_, ?_, ?_, ?_⟩
      · rcases m1 with h | h
        · exact Or.inr (h ▸ List.mem_cons_self x xs)
        · exact Or.inr (List.mem_cons_of_mem x h)
      · by_cases hbres : lexGT (key b) (key res) = true
        · exact absurd (lexGT_trans hxb hbres) (by simp [m2])
        · simpa using hbres
      · intro i hi
        rcases List.mem_cons.mp hi with h | h
        · subst h; exact m2
        · exact m3 i h
      · intro hbeq
        exfalso
        have : lexGT (key x) (key res) = true := hbeq ▸ hxb
        simp [m2] at this
      · intro i hi hkeq
        rcases List.mem_cons.mp hi with h | h
        · subst h; exact m4 hkeq
        · exact m5 i h hkeq
    · rw [if_neg hxb] at hstep
      have hxb' : lexGT (key x) (key b) = false := by
        simpa using hxb
      obtain ⟨m1, m2, m3, m4, m5⟩ := ih b hpw.2
        (fun a ha => le_trans hbx (le_of_lt (hpw.1 a ha)))
      rw [hstep]
      set res := argmaxGo key xs b with hres
      refine ⟨?_, ?_, ?_, ?_, ?_⟩
      · rcases m1 with h | h
        · exact Or.inl h
        · exact Or.inr (List.mem_cons_of_mem x h)
      · exact m2
      · intro i hi
        rcases List.mem_cons.mp hi with h | h
        · subst h
          by_cases hxr : lexGT (key i) (key res) = true
          · exact absurd (lexGT_le_lt hxb' hxr) (by simp [m2])
          · simpa using hxr
        · exact m3 i h
      · exact m4
      · intro i hi hkeq
        rcases List.mem_cons.mp hi with h | h
        · subst h
          have hxr : lexGT (key i) (key res) = false := by
            by_cases hxr : lexGT (key i) (key res) = true
            · exact absurd (lexGT_le_lt hxb' hxr) (by simp [m2])
            · simpa using hxr
          have hbres : key b = key res := by
            refine lexGT_antisymm m2 ?_
            rw [← hkeq]
            exact hxb'
          exact le_trans (m4 hbres) hbx
        · exact m5 i h hkeq


/-- C3: the acceptance_voting winner: no other candidate has a strictly
greater (acceptanceCount, preferenceCount) pair lexicographically, and
among candidates with equal tallies the winner is the one with the lowest
index. -/
theorem acceptance_winner_spec (rs : List (String × String)) (acc pref : List Nat)
    (h : rs ≠ []) (ha : acc.length = rs.length) (hp : pref.length = rs.length) :
    ∃ w : Nat, pick_winner rs acc pref = (w : Int) ∧ w < rs.length
      ∧ (∀ i, i < rs.length →
          ¬ (acc.getD w 0 < acc.getD i 0
             ∨ (acc.getD i 0 = acc.getD w 0 ∧ pref.getD w 0 < pref.getD i 0)))
      ∧ (∀ i, i < rs.length → acc.getD i 0 = acc.getD w 0 →
          pref.getD i 0 = pref.getD w 0 → w ≤ i) := by
  have hn : 0 < rs.length := List.length_pos.mpr h
  have hie : rs.isEmpty = false := by
    cases rs with
    | nil => exact absurd rfl h
    | cons a l => rfl
  obtain ⟨m1, m2, m3, m4, m5⟩ :=
    argmaxGo_spec (fun i => (acc.getD i 0, pref.getD i 0)) (List.range rs.length) 0
      (List.pairwise_lt_range rs.length) (fun a _ => Nat.zero_le a)
  have hw : pick_winner_idx acc pref rs.length
      = argmaxGo (fun i => (acc.getD i 0, pref.getD i 0)) (List.range rs.length) 0 :=
    rfl
  refine ⟨pick_winner_idx acc pref rs.length, ?_, ?_, ?_, ?_⟩
  · unfold pick_winner
    rw [if_neg (by simp [hie])]
  · rw [hw]
    rcases m1 with h0 | hmem
    · omega
    · exact List.mem_range.mp hmem
  · intro i hi
    have := m3 i (List.mem_range.mpr hi)
    rw [← hw] at this
    simp only [lexGT, Bool.or_eq_false_iff, Bool.and_eq_false_iff,
      decide_eq_false_iff_not] at this
    omega
  · intro i hi e1 e2
    have := m5 i (List.mem_range.mpr hi)
    rw [← hw] at this
    apply this
    rw [Prod.mk.injEq]
    exact ⟨e1, e2⟩

/-- C3 witness: three candidates with tallies from the test scenario. -/
theorem acceptance_winner_spec_witness :
    ∃ w : Nat,
      pick_winner [("m1", "r1"), ("m2", "r2"), ("m3", "r3")] [2, 3, 1] [1, 2, 0]
          = (w : Int)
      ∧ w < [("m1", "r1"), ("m2", "r2"), ("m3", "r3")].length
      ∧ (∀ i, i < [("m1", "r1"), ("m2", "r2"), ("m3", "r3")].length →
          ¬ ([2, 3, 1].getD w 0 < [2, 3, 1].getD i 0
             ∨ ([2, 3, 1].getD i 0 = [2, 3, 1].getD w 0
                ∧ [1, 2, 0].getD w 0 < [1, 2, 0].getD i 0)))
      ∧ (∀ i, i < [("m1", "r1"), ("m2", "r2"), ("m3", "r3")].length →
          [2, 3, 1].getD i 0 = [2, 3, 1].getD w 0 →
          [1, 2, 0].getD i 0 = [1, 2, 0].getD w 0 → w ≤ i) :=
  acceptance_winner_spec [("m1", "r1"), ("m2", "r2"), ("m3", "r3")]
    [2, 3, 1] [1, 2, 0] (by decide) (by decide) (by decide)

